import Mathlib

/-!
Verification of the broadcast subsystem of the `sub` repository.

We give a shallow embedding of the Python code in `src/broadcast.py`,
`src/utils.py` and the persistence interface of `src/database.py`, and
prove the specification claims about it.

Conventions of the embedding:
* Python `int` counters are `Nat` (they only ever increase from 0).
* Python truthiness of an optional string (`if message.text:`) is
  "present and non-empty"; truthiness of a user id (`if u`) is "non-zero".
* The IEEE-754 binary64 arithmetic of `create_progress_bar`
  (`int((current / total) * 100)` and `int((current / total) * length)`)
  is modelled exactly: `Float64 x` below is the exact rational value of
  the double nearest to `x` (round to nearest, ties to even, subnormal
  quantum `2^-1074`). CPython's `int / int` true division and float
  multiplication are correctly rounded, so each operation is `Float64`
  of the exact intermediate result, and `int` truncation of a
  non-negative double is its floor. The model assumes no overflow to
  infinity, which holds on every input the theorems quantify over
  (`current ≤ total`, `length ≤ 2^53`).
* The Telegram transport is abstracted by a per-recipient `Outcome`
  (delivery succeeded, peer blocked/deactivated, `FloodWait d` with the
  outcome of the single retry, or any other exception), and side effects
  are recorded in explicit traces (send actions, persisted record updates,
  progress render attempts).
-/

namespace Sub

/-- `utils.batch_list(items, batch_size)`:
`for i in range(0, len(items), batch_size): yield items[i:i + batch_size]`.
`range(0, n, b)` with `b > 0` visits `i = k * b` for `k < ceil(n / b)`,
and the slice `items[i:i+b]` is `(items.drop i).take b`.
(For `b = 0` Python's `range` raises `ValueError`; here the `Nat` division
makes the count 0, so no batches are produced; all claims assume `b > 0`.) -/
def batch_list (items : List α) (batch_size : Nat) : List (List α) :=
  (List.range ((items.length + batch_size - 1) / batch_size)).map
    (fun i => (items.drop (i * batch_size)).take batch_size)

/-- Round a rational to the nearest integer, ties to even: the final
rounding step of IEEE-754 round-to-nearest-even. -/
def rnte (s : ℚ) : ℤ :=
  if s - ⌊s⌋ < 1 / 2 then ⌊s⌋
  else if 1 / 2 < s - ⌊s⌋ then ⌊s⌋ + 1
  else if ⌊s⌋ % 2 = 0 then ⌊s⌋ else ⌊s⌋ + 1

/-- The exact rational value of the IEEE-754 binary64 double nearest to a
non-negative rational: the significand is rounded to nearest (ties to
even) at scale `2^(⌊log₂ x⌋ - 52)`, clamped at the subnormal quantum
`2^-1074`. Overflow to infinity (`x` ≥ roughly `2^1024`) is not modelled;
the arguments fed to it by `create_progress_bar` stay far below that on
every input the theorems quantify over. -/
def Float64 (x : ℚ) : ℚ :=
  if x ≤ 0 then 0
  else
    (rnte (x / 2 ^ max (Int.log 2 x - 52) (-1074)) : ℚ)
      * 2 ^ max (Int.log 2 x - 52) (-1074)

/-- The double produced by Python's `current / total` (CPython's int/int
true division is correctly rounded). -/
def ratioF (current : Nat) (total : Nat) : ℚ :=
  Float64 ((current : ℚ) / (total : ℚ))

/-- `int((current / total) * 100)`: the float product of the ratio with
100 (an exactly representable literal), truncated. Truncation of a
non-negative double is its floor. -/
def percentShown (current : Nat) (total : Nat) : Nat :=
  (⌊Float64 (ratioF current total * 100)⌋).toNat

/-- `int((current / total) * length)`: the float product of the ratio with
`float(length)`, truncated. -/
def filledCells (current : Nat) (total : Nat) (L : Nat) : Nat :=
  (⌊Float64 (ratioF current total * Float64 (L : ℚ))⌋).toNat

/-- `utils.create_progress_bar(current, total, length=10)`.
The Python body guards `total == 0` and otherwise computes
`percent = int((current/total)*100)`, `filled = int((current/total)*length)`,
`empty = length - filled`, returning `"▰"*filled + "▱"*empty + f" {percent}%"`
(all in binary64 arithmetic; `"▱" * empty` with a negative `empty` is the
empty string, matching `Nat` subtraction's clamp at 0). -/
def create_progress_bar (current : Nat) (total : Nat) (length : Nat) : String :=
  if total = 0 then
    String.mk (List.replicate length '▱') ++ " 0%"
  else
    String.mk (List.replicate (filledCells current total length) '▰' ++
      List.replicate (length - filledCells current total length) '▱') ++
      " " ++ toString (percentShown current total) ++ "%"

/-- `config.BROADCAST_BATCH_SIZE = 50`. -/
def BROADCAST_BATCH_SIZE : Nat := 50

lemma batch_list_nil (b : Nat) : batch_list ([] : List α) b = [] := by
  unfold batch_list
  have h : (b - 1) / b = 0 := by
    rcases Nat.eq_zero_or_pos b with hb | hb
    · simp [hb]
    · exact Nat.div_eq_of_lt (by omega)
  simp [h]

lemma batch_count_succ (l : List α) (b : Nat) (hl : l ≠ []) (hb : 0 < b) :
    (l.length + b - 1) / b = ((l.drop b).length + b - 1) / b + 1 := by
  have hn : 1 ≤ l.length := List.length_pos.mpr hl
  rw [List.length_drop]
  set n := l.length with hns
  have h1 : n + b - 1 = (n - 1) + b := by omega
  rw [h1, Nat.add_div_right _ hb]
  rcases le_or_lt n b with h | h
  · have h2 : n - b = 0 := by omega
    rw [h2]
    have h3 : (n - 1) / b = 0 := Nat.div_eq_of_lt (by omega)
    have h4 : (0 + b - 1) / b = 0 := Nat.div_eq_of_lt (by omega)
    rw [h3, h4]
  · have h2 : n - b + b - 1 = (n - b - 1) + b := by omega
    rw [h2, Nat.add_div_right _ hb]
    have h3 : n - 1 = (n - b - 1) + b := by omega
    rw [h3, Nat.add_div_right _ hb]

lemma batch_list_cons (l : List α) (b : Nat) (hl : l ≠ []) (hb : 0 < b) :
    batch_list l b = l.take b :: batch_list (l.drop b) b := by
  unfold batch_list
  rw [batch_count_succ l b hl hb, List.range_succ_eq_map, List.map_cons,
    List.map_map]
  congr 1
  · simp
  · apply List.map_congr_left
    intro i _
    simp only [Function.comp_apply, Nat.succ_eq_add_one]
    rw [List.drop_drop]
    congr 1
    ring_nf

lemma batch_list_flatten_aux (b : Nat) (hb : 0 < b) :
    ∀ (n : Nat) (l : List α), l.length ≤ n → (batch_list l b).flatten = l := by
  intro n
  induction n with
  | zero =>
    intro l hl
    have : l = [] := List.length_eq_zero.mp (Nat.le_zero.mp hl)
    simp [this, batch_list_nil]
  | succ n ih =>
    intro l hl
    rcases Classical.em (l = []) with h | h
    · simp [h, batch_list_nil]
    · rw [batch_list_cons l b h hb, List.flatten_cons,
        ih (l.drop b) (by rw [List.length_drop]; omega)]
      exact List.take_append_drop b l

lemma batch_list_flatten (l : List α) (b : Nat) (hb : 0 < b) :
    (batch_list l b).flatten = l :=
  batch_list_flatten_aux b hb l.length l le_rfl

lemma batch_list_length (l : List α) (b : Nat) :
    (batch_list l b).length = (l.length + b - 1) / b := by
  unfold batch_list
  simp

lemma batch_list_get (l : List α) (b : Nat) (i : Nat)
    (h : i < (batch_list l b).length) :
    (batch_list l b).get ⟨i, h⟩ = (l.drop (i * b)).take b := by
  unfold batch_list at h ⊢
  simp

lemma batch_list_mem_len (l : List α) (b : Nat) (hb : 0 < b) :
    ∀ batch ∈ batch_list l b, 1 ≤ batch.length ∧ batch.length ≤ b := by
  intro batch hmem
  unfold batch_list at hmem
  rcases List.mem_map.mp hmem with ⟨i, hi, hslice⟩
  rw [List.mem_range] at hi
  rw [← hslice]
  have hcount : i + 1 ≤ (l.length + b - 1) / b := hi
  have hmul : (i + 1) * b ≤ l.length + b - 1 :=
    (Nat.le_div_iff_mul_le hb).mp hcount
  rw [Nat.add_mul, Nat.one_mul] at hmul
  simp only [List.length_take, List.length_drop]
  omega

lemma batch_list_get_len (l : List α) (b : Nat) (hb : 0 < b) (i : Nat)
    (h : i < (batch_list l b).length) (hlast : i + 1 < (batch_list l b).length) :
    ((batch_list l b).get ⟨i, h⟩).length = b := by
  rw [batch_list_get, batch_list_length] at *
  have hcount : i + 2 ≤ (l.length + b - 1) / b := hlast
  have hmul : (i + 2) * b ≤ l.length + b - 1 :=
    (Nat.le_div_iff_mul_le hb).mp hcount
  rw [Nat.add_mul] at hmul
  simp only [List.length_take, List.length_drop]
  omega

/-- C6: for every list and batch size `B > 0`, `batch_list` yields
`ceil(N / B)` consecutive batches whose concatenation is the input list,
every batch except possibly the last has exactly `B` elements, and each
batch (the last one in particular) has between 1 and `B` elements. -/
theorem batch_list_partition (l : List α) (b : Nat) (hb : 0 < b) :
    (batch_list l b).flatten = l ∧
    (batch_list l b).length = (l.length + b - 1) / b ∧
    (∀ i (h : i < (batch_list l b).length), i + 1 < (batch_list l b).length →
      ((batch_list l b).get ⟨i, h⟩).length = b) ∧
    (∀ batch ∈ batch_list l b, 1 ≤ batch.length ∧ batch.length ≤ b) :=
  ⟨batch_list_flatten l b hb, batch_list_length l b,
    fun i h hlast => batch_list_get_len l b hb i h hlast,
    batch_list_mem_len l b hb⟩

/-- Witness for C6 at `l = [10, 20, 30]`, `b = 2`: batches `[[10, 20], [30]]`. -/
theorem batch_list_partition_witness :
    batch_list [10, 20, 30] 2 = [[10, 20], [30]] ∧
    (batch_list [10, 20, 30] 2).flatten = [10, 20, 30] ∧
    (batch_list [10, 20, 30] 2).length = (3 + 2 - 1) / 2 :=
  ⟨by decide,
    (batch_list_partition [10, 20, 30] 2 (by decide)).1,
    (batch_list_partition [10, 20, 30] 2 (by decide)).2.1⟩

lemma rnte_floor_le (s : ℚ) : ⌊s⌋ ≤ rnte s := by
  unfold rnte
  split_ifs <;> omega

lemma rnte_le_floor_add_one (s : ℚ) : rnte s ≤ ⌊s⌋ + 1 := by
  unfold rnte
  split_ifs <;> omega

lemma rnte_intCast (n : ℤ) : rnte (n : ℚ) = n := by
  unfold rnte
  rw [Int.floor_intCast, if_pos (by norm_num)]

lemma rnte_eval_lo {t : ℚ} {n : ℤ} (hn : ⌊t⌋ = n) (hfrac : t - n < 1 / 2) :
    rnte t = n := by
  unfold rnte
  rw [hn, if_pos hfrac]

lemma rnte_eval_hi {t : ℚ} {n : ℤ} (hn : ⌊t⌋ = n) (hfrac : 1 / 2 < t - n) :
    rnte t = n + 1 := by
  unfold rnte
  rw [hn, if_neg (by linarith), if_pos hfrac]

lemma rnte_mono {s t : ℚ} (h : s ≤ t) : rnte s ≤ rnte t := by
  rcases lt_or_le ⌊s⌋ ⌊t⌋ with hf | hf
  · have h1 := rnte_le_floor_add_one s
    have h2 := rnte_floor_le t
    omega
  · have hf2 : ⌊s⌋ = ⌊t⌋ := le_antisymm (Int.floor_le_floor h) hf
    have hfr : s - (⌊t⌋ : ℚ) ≤ t - (⌊t⌋ : ℚ) := sub_le_sub_right h _
    unfold rnte
    rw [hf2]
    split_ifs <;> first | omega | linarith

lemma log_eq_of_bounds {x : ℚ} {e : ℤ} (h1 : (2:ℚ) ^ e ≤ x)
    (h2 : x < 2 ^ (e + 1)) : Int.log 2 x = e := by
  have hx : 0 < x := lt_of_lt_of_le (zpow_pos two_pos e) h1
  have hle : e ≤ Int.log 2 x := by
    have hz : Int.log 2 ((2:ℚ) ^ e) = e := Int.log_zpow (by norm_num) e
    have hm : Int.log 2 ((2:ℚ) ^ e) ≤ Int.log 2 x :=
      Int.log_mono_right (zpow_pos two_pos e) h1
    omega
  have hlt : Int.log 2 x < e + 1 := by
    have hx2 : (2:ℚ) ^ (Int.log 2 x) ≤ x :=
      Int.zpow_log_le_self (by norm_num) hx
    exact (zpow_lt_zpow_iff_right₀ one_lt_two).mp (lt_of_le_of_lt hx2 h2)
  omega

lemma Float64_of_pos {x : ℚ} (hx : 0 < x) :
    Float64 x = (rnte (x / 2 ^ max (Int.log 2 x - 52) (-1074)) : ℚ)
      * 2 ^ max (Int.log 2 x - 52) (-1074) := by
  unfold Float64
  rw [if_neg (not_le.mpr hx)]

/-- Evaluate `Float64` from the binade bracketing `2^e ≤ x < 2^(e+1)` and
the rounded significand. -/
lemma Float64_eval (x : ℚ) (e m s : ℤ) (h1 : (2:ℚ) ^ e ≤ x)
    (h2 : x < 2 ^ (e + 1)) (hs : max (e - 52) (-1074) = s)
    (hm : rnte (x / 2 ^ s) = m) :
    Float64 x = (m : ℚ) * 2 ^ s := by
  have hx : 0 < x := lt_of_lt_of_le (zpow_pos two_pos e) h1
  rw [Float64_of_pos hx, log_eq_of_bounds h1 h2, hs, hm]

lemma Float64_nonneg (x : ℚ) : 0 ≤ Float64 x := by
  unfold Float64
  split_ifs with h
  · exact le_refl 0
  · push_neg at h
    set s := max (Int.log 2 x - 52) (-1074) with hs
    have ht : 0 ≤ x / 2 ^ s := le_of_lt (div_pos h (zpow_pos two_pos s))
    have h1 : (0:ℤ) ≤ ⌊x / 2 ^ s⌋ := Int.floor_nonneg.mpr ht
    have h2 := rnte_floor_le (x / 2 ^ s)
    have h3 : (0:ℚ) ≤ (rnte (x / 2 ^ s) : ℚ) := by exact_mod_cast le_trans h1 h2
    exact mul_nonneg h3 (le_of_lt (zpow_pos two_pos s))

lemma Float64_le_zpow {x : ℚ} (hx : 0 < x) :
    Float64 x ≤ 2 ^ (Int.log 2 x + 1) := by
  set e := Int.log 2 x with he
  set s := max (e - 52) (-1074) with hs
  have hspos : (0:ℚ) < 2 ^ s := zpow_pos two_pos s
  have h2 : x < 2 ^ (e + 1) := Int.lt_zpow_succ_log_self (by norm_num) x
  have ht : x / 2 ^ s < 2 ^ (e + 1 - s) := by
    rw [zpow_sub₀ (two_ne_zero)]
    exact div_lt_div_of_pos_right h2 hspos
  have ht0 : 0 ≤ x / 2 ^ s := le_of_lt (div_pos hx hspos)
  rw [Float64_of_pos hx, ← he, ← hs]
  rcases le_or_lt 0 (e + 1 - s) with hk | hk
  · have hNk : (((2 ^ (e + 1 - s).toNat : ℤ)) : ℚ) = 2 ^ (e + 1 - s) := by
      have hc : (((2 ^ (e + 1 - s).toNat : ℤ)) : ℚ)
          = (2:ℚ) ^ (((e + 1 - s).toNat : ℤ)) := by
        push_cast
        rw [← zpow_natCast]
      rw [hc]
      congr 1
      omega
    have hfl : ⌊x / 2 ^ s⌋ < (2 ^ (e + 1 - s).toNat : ℤ) :=
      Int.floor_lt.mpr (by rw [hNk]; exact ht)
    have hr : rnte (x / 2 ^ s) ≤ (2 ^ (e + 1 - s).toNat : ℤ) := by
      have := rnte_le_floor_add_one (x / 2 ^ s)
      omega
    calc (rnte (x / 2 ^ s) : ℚ) * 2 ^ s
        ≤ ((2 ^ (e + 1 - s).toNat : ℤ) : ℚ) * 2 ^ s :=
          mul_le_mul_of_nonneg_right (by exact_mod_cast hr) hspos.le
      _ = 2 ^ (e + 1 - s) * 2 ^ s := by rw [hNk]
      _ = 2 ^ (e + 1) := by
          rw [← zpow_add₀ (two_ne_zero : (2:ℚ) ≠ 0)]
          congr 1
          omega
  · have hsmall : x / 2 ^ s < 1 / 2 := by
      calc x / 2 ^ s < 2 ^ (e + 1 - s) := ht
        _ ≤ 2 ^ (-1 : ℤ) := zpow_le_zpow_right₀ one_le_two (by omega)
        _ = 1 / 2 := by norm_num
    have hr : rnte (x / 2 ^ s) = 0 :=
      rnte_eval_lo (Int.floor_eq_zero_iff.mpr ⟨ht0, by linarith⟩)
        (by push_cast; linarith)
    rw [hr]
    simp only [Int.cast_zero, zero_mul]
    exact le_of_lt (zpow_pos two_pos _)

lemma zpow_le_Float64 {x : ℚ} (hx : 0 < x)
    (hnorm : -1074 ≤ Int.log 2 x - 52) :
    2 ^ (Int.log 2 x) ≤ Float64 x := by
  set e := Int.log 2 x with he
  have hs : max (e - 52) (-1074) = e - 52 := max_eq_left hnorm
  have hspos : (0:ℚ) < 2 ^ (e - 52) := zpow_pos two_pos _
  have h1 : (2:ℚ) ^ e ≤ x := Int.zpow_log_le_self (by norm_num) hx
  have ht : (2:ℚ) ^ (52:ℤ) ≤ x / 2 ^ (e - 52) := by
    rw [le_div_iff₀ hspos, ← zpow_add₀ (two_ne_zero : (2:ℚ) ≠ 0)]
    calc (2:ℚ) ^ ((52:ℤ) + (e - 52)) = 2 ^ e := by congr 1; omega
      _ ≤ x := h1
  have hNk : (((2 ^ 52 : ℤ)) : ℚ) = (2:ℚ) ^ (52:ℤ) := by norm_num
  have hfl : (2 ^ 52 : ℤ) ≤ ⌊x / 2 ^ (e - 52)⌋ :=
    Int.le_floor.mpr (by rw [hNk]; exact ht)
  have hr : (2 ^ 52 : ℤ) ≤ rnte (x / 2 ^ (e - 52)) := by
    have := rnte_floor_le (x / 2 ^ (e - 52))
    omega
  rw [Float64_of_pos hx, ← he, hs]
  calc (2:ℚ) ^ e = 2 ^ (52 + (e - 52)) := by congr 1; omega
    _ = 2 ^ (52:ℤ) * 2 ^ (e - 52) := zpow_add₀ (two_ne_zero : (2:ℚ) ≠ 0) _ _
    _ = ((2 ^ 52 : ℤ) : ℚ) * 2 ^ (e - 52) := by rw [hNk]
    _ ≤ (rnte (x / 2 ^ (e - 52)) : ℚ) * 2 ^ (e - 52) :=
        mul_le_mul_of_nonneg_right (by exact_mod_cast hr) hspos.le

lemma Float64_mono {x y : ℚ} (h : x ≤ y) : Float64 x ≤ Float64 y := by
  rcases le_or_lt x 0 with hx | hx
  · have h0 : Float64 x = 0 := by unfold Float64; rw [if_pos hx]
    rw [h0]
    exact Float64_nonneg y
  · have hy : 0 < y := lt_of_lt_of_le hx h
    have hexy : Int.log 2 x ≤ Int.log 2 y := Int.log_mono_right hx h
    set ex := Int.log 2 x with hex
    set ey := Int.log 2 y with hey
    set sx := max (ex - 52) (-1074) with hsx
    set sy := max (ey - 52) (-1074) with hsy
    have hsxy : sx ≤ sy := max_le_max (by omega) le_rfl
    rcases eq_or_lt_of_le hsxy with hse | hslt
    · rw [Float64_of_pos hx, Float64_of_pos hy, ← hex, ← hey, ← hsx, ← hsy,
        ← hse]
      have ht : x / 2 ^ sx ≤ y / 2 ^ sx :=
        div_le_div_of_nonneg_right h (zpow_pos two_pos sx).le
      exact mul_le_mul_of_nonneg_right (by exact_mod_cast rnte_mono ht)
        (zpow_pos two_pos sx).le
    · have hley : -1074 ≤ sy := le_max_right _ _
      have hsy_eq : sy = ey - 52 := by
        rcases max_choice (ey - 52) (-1074) with h1 | h1
        · rw [hsy, h1]
        · rw [hsy, h1] at hslt ⊢
          have := le_max_right (ex - 52) (-1074)
          omega
      have hnormy : -1074 ≤ ey - 52 := by omega
      have hexlt : ex + 1 ≤ ey := by
        have h1 : ex - 52 ≤ sx := le_max_left _ _
        omega
      calc Float64 x ≤ 2 ^ (ex + 1) := Float64_le_zpow hx
        _ ≤ 2 ^ ey := zpow_le_zpow_right₀ one_le_two hexlt
        _ ≤ Float64 y := zpow_le_Float64 hy hnormy

lemma Float64_natCast {n : ℕ} (hn : n ≤ 2 ^ 53) : Float64 (n : ℚ) = n := by
  rcases Nat.eq_zero_or_pos n with h0 | h0
  · subst h0
    unfold Float64
    rw [if_pos (by norm_num)]
    norm_num
  · have hx : (0:ℚ) < n := by exact_mod_cast h0
    set e := Int.log 2 (n : ℚ) with he
    have he0 : 0 ≤ e := by
      have h1 : (1:ℚ) ≤ n := by exact_mod_cast h0
      have hone : Int.log 2 (1:ℚ) = 0 := Int.log_one_right 2
      have hm : Int.log 2 (1:ℚ) ≤ Int.log 2 (n:ℚ) :=
        Int.log_mono_right one_pos h1
      omega
    have hn2 : (n:ℚ) ≤ 2 ^ (53:ℤ) := by
      have hc : ((n:ℕ):ℚ) ≤ ((2 ^ 53 : ℕ) : ℚ) := by exact_mod_cast hn
      calc (n:ℚ) ≤ ((2 ^ 53 : ℕ) : ℚ) := hc
        _ = 2 ^ (53:ℤ) := by norm_num
    have he53 : e ≤ 53 := by
      have hz : Int.log 2 ((2:ℚ) ^ (53:ℤ)) = 53 := Int.log_zpow (by norm_num) 53
      have hm : Int.log 2 (n:ℚ) ≤ Int.log 2 ((2:ℚ) ^ (53:ℤ)) :=
        Int.log_mono_right hx hn2
      omega
    have h1 : (2:ℚ) ^ e ≤ n := Int.zpow_log_le_self (by norm_num) hx
    have h2 : (n:ℚ) < 2 ^ (e + 1) := Int.lt_zpow_succ_log_self (by norm_num) _
    rcases le_or_lt e 52 with he52 | he53'
    · have hkey : (n:ℚ) / 2 ^ (e - 52) = (((n * 2 ^ (52 - e).toNat : ℤ)) : ℚ) := by
        rw [div_eq_mul_inv, ← zpow_neg, neg_sub]
        push_cast
        congr 1
        have hc : (2:ℚ) ^ ((52 - e).toNat) = (2:ℚ) ^ (((52 - e).toNat : ℤ)) :=
          (zpow_natCast 2 _).symm
        rw [hc]
        congr 1
        omega
      rw [Float64_eval (n:ℚ) e (n * 2 ^ (52 - e).toNat) (e - 52) h1 h2
        (max_eq_left (by omega)) (by rw [hkey, rnte_intCast])]
      push_cast
      rw [mul_assoc, ← zpow_natCast (2:ℚ) ((52 - e).toNat),
        ← zpow_add₀ (two_ne_zero : (2:ℚ) ≠ 0)]
      have hz : ((52 - e).toNat : ℤ) + (e - 52) = 0 := by omega
      rw [hz, zpow_zero, mul_one]
    · have he53'' : e = 53 := by omega
      have hn_ge : (2:ℚ) ^ (53:ℤ) ≤ n := by rw [← he53'']; exact h1
      have hn_eq : (n:ℚ) = 2 ^ (53:ℤ) := le_antisymm hn2 hn_ge
      have hkey : (n:ℚ) / 2 ^ ((1:ℤ)) = (((2 ^ 52 : ℤ)) : ℚ) := by
        rw [hn_eq, ← zpow_sub₀ (two_ne_zero : (2:ℚ) ≠ 0)]
        norm_num
      rw [Float64_eval (n:ℚ) e (2 ^ 52) 1 h1 h2
        (by rw [he53'']; norm_num) (by rw [hkey, rnte_intCast])]
      rw [hn_eq]
      have h52 : (((2 ^ 52 : ℤ)) : ℚ) = (2:ℚ) ^ (52:ℤ) := by norm_num
      rw [h52, ← zpow_add₀ (two_ne_zero : (2:ℚ) ≠ 0)]
      norm_num

/-- C9 counterexample: at `current = 29`, `total = 100` the binary64
arithmetic of the program computes `int((29/100) * 100) = 28`: the double
nearest 29/100 is `5224175567749775/2^54` (slightly below 29/100), and
multiplying it by 100 rounds to `8162774324609023/2^48 < 29`. The bar
therefore displays "28%", while the claim's exact floor
`⌊29/100 * 100⌋ = 29` would demand "29%". -/
theorem create_progress_bar_float_counterexample :
    create_progress_bar 29 100 10 = "▰▰▱▱▱▱▱▱▱▱ 28%" ∧
    create_progress_bar 29 100 10 ≠ "▰▰▱▱▱▱▱▱▱▱ 29%" ∧
    29 * 100 / 100 = 29 := by
  have hr : Float64 (((29:ℕ):ℚ) / ((100:ℕ):ℚ))
      = ((5224175567749775:ℤ):ℚ) * 2 ^ (-54 : ℤ) :=
    Float64_eval _ (-2) _ _ (by norm_num) (by norm_num) (by norm_num)
      (rnte_eval_lo (by norm_num) (by push_cast; norm_num))
  have hp : Float64 (((5224175567749775:ℤ):ℚ) * 2 ^ (-54 : ℤ) * 100)
      = ((8162774324609023:ℤ):ℚ) * 2 ^ (-48 : ℤ) :=
    Float64_eval _ 4 _ _ (by norm_num) (by norm_num) (by norm_num)
      (rnte_eval_lo (by norm_num) (by push_cast; norm_num))
  have hpercent : percentShown 29 100 = 28 := by
    unfold percentShown ratioF
    rw [hr, hp]
    have hfl : ⌊((8162774324609023:ℤ):ℚ) * 2 ^ (-48 : ℤ)⌋ = 28 := by norm_num
    rw [hfl]
    rfl
  have h10 : Float64 (((10:ℕ)):ℚ) = ((10:ℕ):ℚ) := Float64_natCast (by norm_num)
  have hf : Float64 (((5224175567749775:ℤ):ℚ) * 2 ^ (-54 : ℤ) * ((10:ℕ):ℚ))
      = ((6530219459687219:ℤ):ℚ) * 2 ^ (-51 : ℤ) :=
    Float64_eval _ 1 _ _ (by norm_num) (by norm_num) (by norm_num)
      ((@rnte_eval_hi _ 6530219459687218 (by norm_num)
        (by push_cast; norm_num)).trans (by norm_num))
  have hfilled : filledCells 29 100 10 = 2 := by
    unfold filledCells ratioF
    rw [hr, h10, hf]
    have hfl : ⌊((6530219459687219:ℤ):ℚ) * 2 ^ (-51 : ℤ)⌋ = 2 := by norm_num
    rw [hfl]
    rfl
  have heq : create_progress_bar 29 100 10 = "▰▰▱▱▱▱▱▱▱▱ 28%" := by
    unfold create_progress_bar
    rw [if_neg (by norm_num), hpercent, hfilled]
    decide
  exact ⟨heq, by rw [heq]; decide, by norm_num⟩

/-- C9 amended: for `0 ≤ current ≤ total`, `total > 0` and bar length
`L ≤ 2^53`, `create_progress_bar` renders exactly `filledCells` filled
cells — `int((current/total) * L)` in binary64 arithmetic — followed by
`L` minus that many empty cells, and displays `int((current/total) * 100)`
in binary64 arithmetic, which can be one below the exact floor; the
filled-cell count never exceeds `L`; at `current = 25`, `total = 100`,
`L = 10` (exactly representable values) it renders 2 filled cells and
displays "25%". -/
theorem create_progress_bar_float_spec (current total L : Nat)
    (h1 : current ≤ total) (h2 : 0 < total) (h3 : L ≤ 2 ^ 53) :
    create_progress_bar current total L =
      String.mk (List.replicate (filledCells current total L) '▰' ++
        List.replicate (L - filledCells current total L) '▱') ++
        " " ++ toString (percentShown current total) ++ "%" ∧
    filledCells current total L ≤ L ∧
    create_progress_bar 25 100 10 = "▰▰▱▱▱▱▱▱▱▱ 25%" := by
  refine ⟨?_, ?_, ?_⟩
  · unfold create_progress_bar
    rw [if_neg (by omega)]
  · have hr1 : ratioF current total ≤ 1 := by
      unfold ratioF
      have hq : ((current : ℚ) / (total : ℚ)) ≤ 1 := by
        rw [div_le_one (by exact_mod_cast h2)]
        exact_mod_cast h1
      have h1f : Float64 ((1:ℕ):ℚ) = ((1:ℕ):ℚ) := Float64_natCast (by norm_num)
      rw [Nat.cast_one] at h1f
      calc Float64 ((current : ℚ) / (total : ℚ)) ≤ Float64 1 := Float64_mono hq
        _ = 1 := h1f
    have hL : Float64 (L : ℚ) = (L : ℚ) := Float64_natCast h3
    have hprod : ratioF current total * Float64 (L : ℚ) ≤ ((L:ℚ)) := by
      rw [hL]
      calc ratioF current total * (L:ℚ) ≤ 1 * (L:ℚ) :=
            mul_le_mul_of_nonneg_right hr1 (Nat.cast_nonneg L)
        _ = (L:ℚ) := one_mul _
    have hF : Float64 (ratioF current total * Float64 (L : ℚ)) ≤ ((L:ℚ)) :=
      le_trans (Float64_mono hprod) (le_of_eq hL)
    unfold filledCells
    have hfl : ⌊Float64 (ratioF current total * Float64 (L : ℚ))⌋ ≤ (L:ℤ) := by
      have hc := Int.floor_le_floor hF
      rwa [Int.floor_natCast] at hc
    calc (⌊Float64 (ratioF current total * Float64 (L : ℚ))⌋).toNat
        ≤ ((L:ℤ)).toNat := Int.toNat_le_toNat hfl
      _ = L := Int.toNat_natCast L
  · have hr : Float64 (((25:ℕ):ℚ) / ((100:ℕ):ℚ))
        = ((2 ^ 52 : ℤ):ℚ) * 2 ^ (-54 : ℤ) :=
      Float64_eval _ (-2) _ _ (by norm_num) (by norm_num) (by norm_num)
        (rnte_eval_lo (by norm_num) (by push_cast; norm_num))
    have hr4 : Float64 (((25:ℕ):ℚ) / ((100:ℕ):ℚ)) = (1/4 : ℚ) :=
      hr.trans (by norm_num)
    have hpercent : percentShown 25 100 = 25 := by
      unfold percentShown ratioF
      rw [hr4, (by norm_num : (1/4 : ℚ) * 100 = ((25:ℕ):ℚ)),
        Float64_natCast (by norm_num), Int.floor_natCast]
      rfl
    have h10 : Float64 (((10:ℕ)):ℚ) = ((10:ℕ):ℚ) := Float64_natCast (by norm_num)
    have hf : Float64 ((5/2 : ℚ)) = ((5 * 2 ^ 50 : ℤ):ℚ) * 2 ^ (-51 : ℤ) :=
      Float64_eval _ 1 _ _ (by norm_num) (by norm_num) (by norm_num)
        (rnte_eval_lo (by norm_num) (by push_cast; norm_num))
    have hfilled : filledCells 25 100 10 = 2 := by
      unfold filledCells ratioF
      rw [hr4, h10, (by norm_num : (1/4 : ℚ) * ((10:ℕ):ℚ) = (5/2 : ℚ)), hf]
      have hfl : ⌊((5 * 2 ^ 50 : ℤ):ℚ) * 2 ^ (-51 : ℤ)⌋ = 2 := by norm_num
      rw [hfl]
      rfl
    unfold create_progress_bar
    rw [if_neg (by norm_num), hpercent, hfilled]
    decide

/-- Witness for C9 amended at `current = 25`, `total = 100`, `L = 10`. -/
theorem create_progress_bar_float_spec_witness :
    25 ≤ 100 ∧ 0 < 100 ∧ 10 ≤ 2 ^ 53 ∧
    create_progress_bar 25 100 10 = "▰▰▱▱▱▱▱▱▱▱ 25%" :=
  ⟨by norm_num, by norm_num, by norm_num,
    (create_progress_bar_float_spec 25 100 10 (by norm_num) (by norm_num)
      (by norm_num)).2.2⟩

/-- C10: with `total = 0`, `create_progress_bar` performs no division and
returns a bar of exactly `L` empty cells followed by " 0%", for every
`current` and every `L`. -/
theorem create_progress_bar_total_zero (current L : Nat) :
    create_progress_bar current 0 L =
      String.mk (List.replicate L '▱') ++ " 0%" := by
  unfold create_progress_bar
  rw [if_pos rfl]

/-- The pyrogram `Message` fields consulted by `broadcast_message`:
the optional text, the optional media objects (modelled by their
`file_id`), and the optional caption. -/
structure Payload where
  text : Option String
  photo : Option String
  video : Option String
  document : Option String
  animation : Option String
  caption : Option String
deriving DecidableEq

/-- Per-recipient transport outcome of the first send attempt
(`client.send_*` in `broadcast.py`): delivered, `UserIsBlocked` /
`InputUserDeactivated`, `FloodWait` carrying the required wait `d` and
whether the single retry succeeds, or any other exception. -/
inductive Outcome where
  | ok : Outcome
  | blockedPeer : Outcome
  | floodWait (d : Nat) (retryOk : Bool) : Outcome
  | otherError : Outcome
deriving DecidableEq

/-- A side effect performed while processing one recipient: one of the
five `client.send_*` calls, or the `asyncio.sleep` of rate-limit backoff. -/
inductive Action where
  | sendMessage (text : String) : Action
  | sendPhoto (fileId : String) (caption : Option String) : Action
  | sendVideo (fileId : String) (caption : Option String) : Action
  | sendDocument (fileId : String) (caption : Option String) : Action
  | sendAnimation (fileId : String) (caption : Option String) : Action
  | sleep (d : Nat) : Action
deriving DecidableEq

/-- Python truthiness of an optional string (`if message.text:`):
present and non-empty. -/
def truthyStr : Option String → Bool
  | none => false
  | some s => s != ""

/-- The send action chosen by the `if/elif` chain of `broadcast_message`
(broadcast.py lines 67–92): text, photo, video, document, animation in that
order, else no send at all. Media objects are truthy when present. -/
def sendAction (p : Payload) : Option Action :=
  if truthyStr p.text then some (Action.sendMessage (p.text.getD ""))
  else if p.photo.isSome then some (Action.sendPhoto (p.photo.getD "") p.caption)
  else if p.video.isSome then some (Action.sendVideo (p.video.getD "") p.caption)
  else if p.document.isSome then some (Action.sendDocument (p.document.getD "") p.caption)
  else if p.animation.isSome then some (Action.sendAnimation (p.animation.getD "") p.caption)
  else none

/-- `message.text or "Message"` (line 103): the text when truthy, else the
literal string "Message". -/
def retryText (p : Payload) : String :=
  if truthyStr p.text then p.text.getD "" else "Message"

/-- The mutable `stats` counters of `broadcast_message`; `total` is carried
separately as the recipient-list length. -/
structure Stats where
  success : Nat
  failed : Nat
  blocked : Nat
deriving DecidableEq

/-- `success + failed + blocked`. -/
def Stats.sum (s : Stats) : Nat := s.success + s.failed + s.blocked

/-- Componentwise order on the counters. -/
def Stats.le (s t : Stats) : Prop :=
  s.success ≤ t.success ∧ s.failed ≤ t.failed ∧ s.blocked ≤ t.blocked

/-- One iteration of the inner `for user_id in batch` loop (lines 64–109):
the updated counters and the send/sleep actions performed for this
recipient. When the payload has no recognized variant the `try` body falls
through the `if/elif` chain without sending and still executes
`stats["success"] += 1`. On `FloodWait` the code sleeps and retries once
with `send_message(user_id, message.text or "Message")`. -/
def processOne (p : Payload) (o : Outcome) (s : Stats) : Stats × List Action :=
  match sendAction p with
  | none => ({ s with success := s.success + 1 }, [])
  | some a =>
    match o with
    | Outcome.ok => ({ s with success := s.success + 1 }, [a])
    | Outcome.blockedPeer => ({ s with blocked := s.blocked + 1 }, [a])
    | Outcome.floodWait d retryOk =>
      if retryOk then
        ({ s with success := s.success + 1 },
          [a, Action.sleep d, Action.sendMessage (retryText p)])
      else
        ({ s with failed := s.failed + 1 },
          [a, Action.sleep d, Action.sendMessage (retryText p)])
    | Outcome.otherError => ({ s with failed := s.failed + 1 }, [a])

/-- The inner loop over one batch. A recipient is a user id paired with the
transport outcome its delivery would produce. Returns the final counters
and the per-recipient action traces in order. -/
def processList (p : Payload) (s : Stats) :
    List (Nat × Outcome) → Stats × List (Nat × List Action)
  | [] => (s, [])
  | (u, o) :: rest =>
    let step := processOne p o s
    let next := processList p step.1 rest
    (next.1, (u, step.2) :: next.2)

/-- One `$inc` update sent to `Database.update_broadcast_stats`
(database.py lines 515–531): the deltas added to the record's success,
failed and blocked fields. -/
structure BatchRecord where
  successDelta : Nat
  failedDelta : Nat
  blockedDelta : Nat
deriving DecidableEq

/-- What broadcast.py lines 112–115 persist after a batch:
`success=len([u for u in batch if u])` (the count of truthy, i.e. non-zero,
user ids in the batch) and the defaults `failed=0, blocked=0`. -/
def persistedDelta (batch : List (Nat × Outcome)) : BatchRecord :=
  { successDelta := (batch.filter (fun r => r.1 != 0)).length,
    failedDelta := 0,
    blockedDelta := 0 }

/-- One attempted progress update (lines 118–138): the 1-based batch
number, the stats snapshot read inside the `try`, the `remaining` value
passed to the render, and whether the `edit_text` call succeeded (a failed
render or edit is swallowed by the bare `except: pass`). -/
structure RenderEvent where
  batchNum : Nat
  snapshot : Stats
  remaining : Int
  editOk : Bool
deriving DecidableEq

/-- Observable result of a `broadcast_message` run: the returned counters,
the per-batch record updates persisted to the database, the attempted
progress renders, and the per-recipient action traces. -/
structure RunResult where
  stats : Stats
  persisted : List BatchRecord
  renders : List RenderEvent
  trace : List (Nat × List Action)
deriving DecidableEq

/-- The outer `for batch_num, batch in enumerate(batch_list(...), 1)` loop.
`progressMsg` is whether a progress message was supplied; `editOk` gives,
for each batch number, whether the `edit_text` call would succeed — its
outcome is swallowed either way and nothing else depends on it. -/
def runBatches (p : Payload) (progressMsg : Bool) (editOk : Nat → Bool)
    (total : Nat) :
    Nat → Stats → List (List (Nat × Outcome)) → RunResult
  | _, s, [] => { stats := s, persisted := [], renders := [], trace := [] }
  | n, s, batch :: rest =>
    let step := processList p s batch
    let here : List RenderEvent :=
      if progressMsg && (n % 5 == 0) then
        [{ batchNum := n,
           snapshot := step.1,
           remaining := (total : Int) - step.1.success - step.1.failed
             - step.1.blocked,
           editOk := editOk n }]
      else []
    let next := runBatches p progressMsg editOk total (n + 1) step.1 rest
    { stats := next.stats,
      persisted := persistedDelta batch :: next.persisted,
      renders := here ++ next.renders,
      trace := step.2 ++ next.trace }

/-- `BroadcastManager.broadcast_message` (broadcast.py lines 27–151) over an
abstract recipient list. `get_all_user_ids`, the record creation and
finalization calls and the wall-clock `time_taken` string are outside the
claims; the returned counters and every persisted or rendered side effect
are modelled. -/
def broadcast_message (p : Payload) (progressMsg : Bool) (editOk : Nat → Bool)
    (batch_size : Nat) (recipients : List (Nat × Outcome)) : RunResult :=
  runBatches p progressMsg editOk recipients.length 1
    { success := 0, failed := 0, blocked := 0 }
    (batch_list recipients batch_size)

/-- The counters after the first `k` recipients have been processed (flat
view of the nested loops; the batched run reaches exactly these states at
recipient boundaries). -/
def statsAfter (p : Payload) (recipients : List (Nat × Outcome)) (k : Nat) :
    Stats :=
  (processList p { success := 0, failed := 0, blocked := 0 }
    (recipients.take k)).1

/-- A plain text payload, as produced by a text admin message. -/
def textPayload : Payload :=
  { text := some "hello", photo := none, video := none, document := none,
    animation := none, caption := none }

/-- A photo payload with file id "fid" and no caption. -/
def photoPayload : Payload :=
  { text := none, photo := some "fid", video := none, document := none,
    animation := none, caption := none }

/-- A payload with no recognized variant (e.g. a sticker, poll or contact
message): all consulted fields are absent. -/
def emptyPayload : Payload :=
  { text := none, photo := none, video := none, document := none,
    animation := none, caption := none }

lemma Stats.le_refl (s : Stats) : Stats.le s s := ⟨le_rfl, le_rfl, le_rfl⟩

lemma Stats.le_trans {s t u : Stats} (h1 : Stats.le s t) (h2 : Stats.le t u) :
    Stats.le s u :=
  ⟨h1.1.trans h2.1, h1.2.1.trans h2.2.1, h1.2.2.trans h2.2.2⟩

lemma processOne_sum (p : Payload) (o : Outcome) (s : Stats) :
    ((processOne p o s).1).sum = s.sum + 1 := by
  unfold processOne Stats.sum
  cases sendAction p <;> cases o <;> dsimp <;>
    first
      | omega
      | (rename_i d r; cases r <;> dsimp <;> omega)

lemma processOne_le (p : Payload) (o : Outcome) (s : Stats) :
    Stats.le s (processOne p o s).1 := by
  unfold processOne Stats.le
  cases sendAction p <;> cases o <;> dsimp <;>
    first
      | omega
      | (rename_i d r; cases r <;> dsimp <;> omega)

lemma processList_sum (p : Payload) (l : List (Nat × Outcome)) :
    ∀ s : Stats, ((processList p s l).1).sum = s.sum + l.length := by
  induction l with
  | nil => intro s; simp [processList]
  | cons x rest ih =>
    intro s
    obtain ⟨u, o⟩ := x
    simp only [processList]
    rw [ih, processOne_sum]
    simp only [List.length_cons]
    omega

lemma processList_le (p : Payload) (l : List (Nat × Outcome)) :
    ∀ s : Stats, Stats.le s (processList p s l).1 := by
  induction l with
  | nil => intro s; simp only [processList]; exact Stats.le_refl s
  | cons x rest ih =>
    intro s
    obtain ⟨u, o⟩ := x
    simp only [processList]
    exact Stats.le_trans (processOne_le p o s) (ih _)

lemma processList_append (p : Payload) (l1 l2 : List (Nat × Outcome)) :
    ∀ s, processList p s (l1 ++ l2)
      = ((processList p (processList p s l1).1 l2).1,
         (processList p s l1).2 ++ (processList p (processList p s l1).1 l2).2) := by
  induction l1 with
  | nil => intro s; simp [processList]
  | cons x rest ih =>
    intro s
    obtain ⟨u, o⟩ := x
    simp only [List.cons_append, processList, List.append_eq]
    rw [ih]

lemma processList_ids (p : Payload) (l : List (Nat × Outcome)) :
    ∀ s, ((processList p s l).2).map Prod.fst = l.map Prod.fst := by
  induction l with
  | nil => intro s; simp [processList]
  | cons x rest ih =>
    intro s
    obtain ⟨u, o⟩ := x
    simp only [processList, List.map_cons]
    rw [ih]

lemma processOne_head (p : Payload) (a : Action) (ha : sendAction p = some a)
    (o : Outcome) (s : Stats) : ((processOne p o s).2).head? = some a := by
  unfold processOne
  rw [ha]
  cases o <;>
    first
      | rfl
      | (rename_i d r; cases r <;> rfl)

lemma processList_head (p : Payload) (a : Action) (ha : sendAction p = some a)
    (l : List (Nat × Outcome)) :
    ∀ s, ∀ entry ∈ (processList p s l).2, entry.2.head? = some a := by
  induction l with
  | nil => intro s entry h; simp [processList] at h
  | cons x rest ih =>
    intro s entry h
    obtain ⟨u, o⟩ := x
    simp only [processList, List.mem_cons] at h
    rcases h with h | h
    · rw [h]
      exact processOne_head p a ha o s
    · exact ih _ entry h

lemma runBatches_stats (p : Payload) (pm : Bool) (e : Nat → Bool) (total : Nat)
    (batches : List (List (Nat × Outcome))) :
    ∀ n s, (runBatches p pm e total n s batches).stats
      = (processList p s batches.flatten).1 := by
  induction batches with
  | nil => intro n s; simp [runBatches, processList]
  | cons batch rest ih =>
    intro n s
    simp only [runBatches, List.flatten_cons]
    rw [processList_append, ih]

lemma runBatches_trace (p : Payload) (pm : Bool) (e : Nat → Bool) (total : Nat)
    (batches : List (List (Nat × Outcome))) :
    ∀ n s, (runBatches p pm e total n s batches).trace
      = (processList p s batches.flatten).2 := by
  induction batches with
  | nil => intro n s; simp [runBatches, processList]
  | cons batch rest ih =>
    intro n s
    simp only [runBatches, List.flatten_cons]
    rw [processList_append, ih]

lemma runBatches_persisted (p : Payload) (pm : Bool) (e : Nat → Bool)
    (total : Nat) (batches : List (List (Nat × Outcome))) :
    ∀ n s, (runBatches p pm e total n s batches).persisted
      = batches.map persistedDelta := by
  induction batches with
  | nil => intro n s; simp [runBatches]
  | cons batch rest ih =>
    intro n s
    simp only [runBatches, List.map_cons]
    rw [ih]

lemma runBatches_renders_off (p : Payload) (e : Nat → Bool) (total : Nat)
    (batches : List (List (Nat × Outcome))) :
    ∀ n s, (runBatches p false e total n s batches).renders = [] := by
  induction batches with
  | nil => intro n s; simp [runBatches]
  | cons batch rest ih =>
    intro n s
    simp only [runBatches, Bool.false_and, if_neg Bool.false_ne_true,
      List.nil_append]
    exact ih (n + 1) _

lemma runBatches_renders_nums (p : Payload) (e : Nat → Bool) (total : Nat)
    (batches : List (List (Nat × Outcome))) :
    ∀ n s, ((runBatches p true e total n s batches).renders).map
        RenderEvent.batchNum
      = (List.range' n batches.length).filter (fun m => m % 5 == 0) := by
  induction batches with
  | nil => intro n s; simp [runBatches]
  | cons batch rest ih =>
    intro n s
    simp only [runBatches, List.length_cons, List.range'_succ,
      List.filter_cons, Bool.true_and, List.map_append]
    rw [ih (n + 1)]
    rcases Classical.em ((n % 5 == 0) = true) with h | h
    · rw [if_pos h, if_pos h]
      simp
    · rw [if_neg h, if_neg h]
      simp

lemma runBatches_renders_remaining (p : Payload) (pm : Bool) (e : Nat → Bool)
    (total : Nat) (batches : List (List (Nat × Outcome))) :
    ∀ n s, s.sum + batches.flatten.length ≤ total →
      ∀ ev ∈ (runBatches p pm e total n s batches).renders,
        ev.remaining = (total : Int) - ev.snapshot.success
            - ev.snapshot.failed - ev.snapshot.blocked ∧
          0 ≤ ev.remaining := by
  induction batches with
  | nil =>
    intro n s hsum ev hev
    simp [runBatches] at hev
  | cons batch rest ih =>
    intro n s hsum ev hev
    rw [List.flatten_cons, List.length_append] at hsum
    simp only [runBatches, List.mem_append] at hev
    have hs1 : ((processList p s batch).1).sum = s.sum + batch.length :=
      processList_sum p batch s
    rcases hev with hev | hev
    · rcases Classical.em ((pm && (n % 5 == 0)) = true) with hc | hc
      · rw [if_pos hc, List.mem_singleton] at hev
        subst hev
        refine ⟨rfl, ?_⟩
        have hle : ((processList p s batch).1).sum ≤ total := by omega
        unfold Stats.sum at hle
        simp only
        omega
      · rw [if_neg hc] at hev
        simp at hev
    · exact ih (n + 1) _ (by omega) ev hev

lemma processOne_no_variant (p : Payload) (hp : sendAction p = none)
    (o : Outcome) (s : Stats) :
    processOne p o s = ({ s with success := s.success + 1 }, []) := by
  unfold processOne
  rw [hp]

lemma processList_no_variant (p : Payload) (hp : sendAction p = none)
    (l : List (Nat × Outcome)) :
    ∀ s, (processList p s l).1
        = { success := s.success + l.length, failed := s.failed,
            blocked := s.blocked } ∧
      ∀ entry ∈ (processList p s l).2, entry.2 = [] := by
  induction l with
  | nil => intro s; simp [processList]
  | cons x rest ih =>
    intro s
    obtain ⟨u, o⟩ := x
    simp only [processList, processOne_no_variant p hp, List.length_cons]
    refine ⟨?_, ?_⟩
    · rw [(ih _).1]
      simp only
      congr 1
      omega
    · intro entry hentry
      rw [List.mem_cons] at hentry
      rcases hentry with h | h
      · rw [h]
      · exact (ih _).2 entry h

/-- C1: for every payload and every sequence of per-recipient transport
outcomes (success, blocked, rate-limited with either retry outcome, other
error, or a payload with no recognized variant) over N recipients, the
success/failed/blocked counters of `broadcast_message` are componentwise
non-decreasing along the run, their sum after each processed recipient is
at most N, the returned counters are the state after all N recipients, and
their sum at return equals N. -/
theorem broadcast_stats_invariant (p : Payload) (pm : Bool) (e : Nat → Bool)
    (b : Nat) (recipients : List (Nat × Outcome)) (hb : 0 < b) :
    (∀ j k, j ≤ k →
      Stats.le (statsAfter p recipients j) (statsAfter p recipients k)) ∧
    (∀ k, (statsAfter p recipients k).sum ≤ recipients.length) ∧
    (broadcast_message p pm e b recipients).stats
      = statsAfter p recipients recipients.length ∧
    ((broadcast_message p pm e b recipients).stats).sum
      = recipients.length := by
  have hstats : (broadcast_message p pm e b recipients).stats
      = (processList p { success := 0, failed := 0, blocked := 0 }
          recipients).1 := by
    unfold broadcast_message
    rw [runBatches_stats, batch_list_flatten recipients b hb]
  refine ⟨?_, ?_, ?_, ?_⟩
  · intro j k hjk
    have h1 : recipients.take j ++ (recipients.take k).drop j
        = recipients.take k := by
      conv_rhs => rw [← List.take_append_drop j (recipients.take k)]
      rw [List.take_take, min_eq_left hjk]
    unfold statsAfter
    rw [← h1, processList_append]
    exact processList_le p _ _
  · intro k
    unfold statsAfter
    rw [processList_sum]
    simp only [Stats.sum, List.length_take]
    omega
  · rw [hstats]
    unfold statsAfter
    rw [List.take_length]
  · rw [hstats, processList_sum]
    simp [Stats.sum]

/-- Witness for C1: five recipients exercising all outcome kinds with
batch size 2; the counter sum at return is 5. -/
theorem broadcast_stats_invariant_witness :
    0 < 2 ∧
    ((broadcast_message textPayload true (fun _ => true) 2
        [(1, Outcome.ok), (2, Outcome.otherError),
         (3, Outcome.floodWait 4 false), (0, Outcome.blockedPeer),
         (5, Outcome.ok)]).stats).sum = 5 :=
  ⟨by decide,
    (broadcast_stats_invariant textPayload true (fun _ => true) 2
      [(1, Outcome.ok), (2, Outcome.otherError),
       (3, Outcome.floodWait 4 false), (0, Outcome.blockedPeer),
       (5, Outcome.ok)] (by decide)).2.2.2⟩

/-- C2 counterexample: a single recipient (user id 1) whose delivery fails
with an unclassified error. The batch is classified `success = 0,
failed = 1`, yet the code persists the delta `success = 1, failed = 0,
blocked = 0`: `update_broadcast_stats` is called with
`success=len([u for u in batch if u])` and the defaults for the rest, so
the persisted delta is not the classified outcome count. -/
theorem broadcast_persist_counterexample :
    (broadcast_message textPayload false (fun _ => true) 50
        [(1, Outcome.otherError)]).persisted
      = [{ successDelta := 1, failedDelta := 0, blockedDelta := 0 }] ∧
    (broadcast_message textPayload false (fun _ => true) 50
        [(1, Outcome.otherError)]).stats
      = { success := 0, failed := 1, blocked := 0 } := by
  decide

/-- C2 amended: after each batch the code persists exactly one record
update whose success delta is the number of non-zero (truthy) user ids in
that batch and whose failed and blocked deltas are 0, regardless of how
the batch's deliveries were classified. -/
theorem broadcast_persisted_deltas (p : Payload) (pm : Bool) (e : Nat → Bool)
    (b : Nat) (recipients : List (Nat × Outcome)) :
    (broadcast_message p pm e b recipients).persisted
      = (batch_list recipients b).map persistedDelta ∧
    ∀ r ∈ (broadcast_message p pm e b recipients).persisted,
      r.failedDelta = 0 ∧ r.blockedDelta = 0 := by
  have h : (broadcast_message p pm e b recipients).persisted
      = (batch_list recipients b).map persistedDelta := by
    unfold broadcast_message
    exact runBatches_persisted p pm e recipients.length
      (batch_list recipients b) 1 _
  refine ⟨h, ?_⟩
  intro r hr
  rw [h] at hr
  rcases List.mem_map.mp hr with ⟨batch, _, hbatch⟩
  rw [← hbatch]
  exact ⟨rfl, rfl⟩

/-- C3 counterexample: a photo payload rate-limited on the first attempt.
The retry is `send_message(user_id, message.text or "Message")` — a plain
text send of the literal "Message" — not a redelivery of the photo
payload. -/
theorem floodwait_retry_counterexample :
    sendAction photoPayload = some (Action.sendPhoto "fid" none) ∧
    (processOne photoPayload (Outcome.floodWait 3 true)
        { success := 0, failed := 0, blocked := 0 }).2
      = [Action.sendPhoto "fid" none, Action.sleep 3,
         Action.sendMessage "Message"] ∧
    Action.sendMessage "Message" ≠ Action.sendPhoto "fid" none := by
  decide

/-- C3 amended: on a rate limit with required wait `d`, the engine sleeps
`d` and then retries exactly once, the retry being a plain text
`send_message` of `message.text` when truthy and of the literal "Message"
otherwise (not a redelivery of the original payload variant); a successful
retry increments `success` only, a failed retry increments `failed` only. -/
theorem floodwait_retry (p : Payload) (a : Action)
    (ha : sendAction p = some a) (d : Nat) (r : Bool) (s : Stats) :
    (processOne p (Outcome.floodWait d r) s).2
      = [a, Action.sleep d, Action.sendMessage (retryText p)] ∧
    (r = true → (processOne p (Outcome.floodWait d r) s).1
      = { s with success := s.success + 1 }) ∧
    (r = false → (processOne p (Outcome.floodWait d r) s).1
      = { s with failed := s.failed + 1 }) := by
  unfold processOne
  rw [ha]
  cases r <;> simp

/-- Witness for C3 amended: a text payload rate-limited for 7 seconds with
a successful retry. -/
theorem floodwait_retry_witness :
    sendAction textPayload = some (Action.sendMessage "hello") ∧
    (processOne textPayload (Outcome.floodWait 7 true)
        { success := 2, failed := 1, blocked := 0 }).2
      = [Action.sendMessage "hello", Action.sleep 7,
         Action.sendMessage (retryText textPayload)] :=
  ⟨by decide,
    (floodwait_retry textPayload (Action.sendMessage "hello") (by decide)
      7 true { success := 2, failed := 1, blocked := 0 }).1⟩

/-- C4 counterexample: a payload with no recognized variant and one
recipient. No send is attempted (the action trace is empty), but
`stats["success"] += 1` at the end of the `try` body still runs, so the
recipient is counted as a success — not "neither success nor failure". -/
theorem broadcast_no_variant_counterexample :
    (broadcast_message emptyPayload false (fun _ => true) 50
        [(7, Outcome.ok)]).stats
      = { success := 1, failed := 0, blocked := 0 } ∧
    (broadcast_message emptyPayload false (fun _ => true) 50
        [(7, Outcome.ok)]).trace
      = [(7, [])] := by
  decide

/-- C4 amended: for a payload with no recognized variant no send is
attempted for any recipient (every per-recipient action trace is empty),
but each such recipient is counted as a success: the returned counters are
`success = N, failed = 0, blocked = 0`. -/
theorem broadcast_no_variant (p : Payload) (pm : Bool) (e : Nat → Bool)
    (b : Nat) (recipients : List (Nat × Outcome))
    (hp : sendAction p = none) (hb : 0 < b) :
    (broadcast_message p pm e b recipients).stats
      = { success := recipients.length, failed := 0, blocked := 0 } ∧
    ∀ entry ∈ (broadcast_message p pm e b recipients).trace,
      entry.2 = [] := by
  have hflat : (batch_list recipients b).flatten = recipients :=
    batch_list_flatten recipients b hb
  constructor
  · unfold broadcast_message
    rw [runBatches_stats, hflat,
      (processList_no_variant p hp recipients _).1]
    congr 1
    simp
  · intro entry hentry
    unfold broadcast_message at hentry
    rw [runBatches_trace, hflat] at hentry
    exact (processList_no_variant p hp recipients _).2 entry hentry

/-- Witness for C4 amended: three recipients of a variant-less payload. -/
theorem broadcast_no_variant_witness :
    sendAction emptyPayload = none ∧
    (broadcast_message emptyPayload true (fun _ => true) 50
        [(1, Outcome.ok), (2, Outcome.otherError),
         (3, Outcome.blockedPeer)]).stats
      = { success := 3, failed := 0, blocked := 0 } :=
  ⟨by decide,
    (broadcast_no_variant emptyPayload true (fun _ => true) 50
      [(1, Outcome.ok), (2, Outcome.otherError), (3, Outcome.blockedPeer)]
      (by decide) (by decide)).1⟩

/-- C5: for every payload and every outcome sequence, `broadcast_message`
totally processes every recipient in order — the trace covers exactly the
input id list, so no recipient's failure aborts a later recipient's
processing; whenever the payload has a send action, that send is attempted
for every recipient; and every recipient is classified into exactly one of
success/failed/blocked (the counter sum equals N). -/
theorem broadcast_no_propagation (p : Payload) (pm : Bool) (e : Nat → Bool)
    (b : Nat) (recipients : List (Nat × Outcome)) (hb : 0 < b) :
    ((broadcast_message p pm e b recipients).trace).map Prod.fst
      = recipients.map Prod.fst ∧
    (∀ a, sendAction p = some a →
      ∀ entry ∈ (broadcast_message p pm e b recipients).trace,
        entry.2.head? = some a) ∧
    ((broadcast_message p pm e b recipients).stats).sum
      = recipients.length := by
  have hflat : (batch_list recipients b).flatten = recipients :=
    batch_list_flatten recipients b hb
  have htr : (broadcast_message p pm e b recipients).trace
      = (processList p { success := 0, failed := 0, blocked := 0 }
          recipients).2 := by
    unfold broadcast_message
    rw [runBatches_trace, hflat]
  refine ⟨?_, ?_, ?_⟩
  · rw [htr]
    exact processList_ids p recipients _
  · intro a ha entry hentry
    rw [htr] at hentry
    exact processList_head p a ha recipients _ entry hentry
  · unfold broadcast_message
    rw [runBatches_stats, hflat, processList_sum]
    simp [Stats.sum]

/-- Witness for C5: four recipients, each with a different failure mode;
all four appear in the trace and the counter sum is 4. -/
theorem broadcast_no_propagation_witness :
    ((broadcast_message textPayload true (fun _ => true) 3
        [(11, Outcome.otherError), (12, Outcome.blockedPeer),
         (13, Outcome.floodWait 9 false), (14, Outcome.ok)]).trace).map
        Prod.fst
      = [11, 12, 13, 14] :=
  (broadcast_no_propagation textPayload true (fun _ => true) 3
    [(11, Outcome.otherError), (12, Outcome.blockedPeer),
     (13, Outcome.floodWait 9 false), (14, Outcome.ok)] (by decide)).1

/-- C7: every `remaining` value passed to the progress render equals
`total - success - failed - blocked` at the stats snapshot taken at that
moment, and is never negative, for every payload, recipient list and
outcome sequence. -/
theorem broadcast_remaining_nonneg (p : Payload) (pm : Bool)
    (e : Nat → Bool) (b : Nat) (recipients : List (Nat × Outcome))
    (hb : 0 < b) :
    ∀ ev ∈ (broadcast_message p pm e b recipients).renders,
      ev.remaining = (recipients.length : Int) - ev.snapshot.success
          - ev.snapshot.failed - ev.snapshot.blocked ∧
        0 ≤ ev.remaining := by
  unfold broadcast_message
  apply runBatches_renders_remaining
  rw [batch_list_flatten recipients b hb]
  simp [Stats.sum]

/-- Witness for C7: six single-recipient batches, so the 5th batch renders;
its remaining value is 1 and satisfies the theorem. -/
theorem broadcast_remaining_nonneg_witness :
    (broadcast_message textPayload true (fun _ => true) 1
        [(1, Outcome.ok), (2, Outcome.ok), (3, Outcome.otherError),
         (4, Outcome.blockedPeer), (5, Outcome.ok),
         (6, Outcome.ok)]).renders
      = [{ batchNum := 5,
           snapshot := { success := 3, failed := 1, blocked := 1 },
           remaining := 1, editOk := true }] ∧
    ∀ ev ∈ (broadcast_message textPayload true (fun _ => true) 1
        [(1, Outcome.ok), (2, Outcome.ok), (3, Outcome.otherError),
         (4, Outcome.blockedPeer), (5, Outcome.ok),
         (6, Outcome.ok)]).renders,
      0 ≤ ev.remaining :=
  ⟨by decide,
    fun ev hev =>
      ((broadcast_remaining_nonneg textPayload true (fun _ => true) 1
        [(1, Outcome.ok), (2, Outcome.ok), (3, Outcome.otherError),
         (4, Outcome.blockedPeer), (5, Outcome.ok), (6, Outcome.ok)]
        (by decide)) ev hev).2⟩

/-- C8: with a progress message supplied, a progress update is attempted
exactly at batch numbers 5, 10, 15, … (and never without one), and the
edit outcome is swallowed: the returned counters, the persisted record
updates and the action traces are identical for any two edit-outcome
assignments. -/
theorem broadcast_progress_cadence (p : Payload) (e1 e2 : Nat → Bool)
    (b : Nat) (recipients : List (Nat × Outcome)) :
    ((broadcast_message p true e1 b recipients).renders).map
        RenderEvent.batchNum
      = (List.range' 1 (batch_list recipients b).length).filter
          (fun m => m % 5 == 0) ∧
    (broadcast_message p false e1 b recipients).renders = [] ∧
    (broadcast_message p true e1 b recipients).stats
      = (broadcast_message p true e2 b recipients).stats ∧
    (broadcast_message p true e1 b recipients).persisted
      = (broadcast_message p true e2 b recipients).persisted ∧
    (broadcast_message p true e1 b recipients).trace
      = (broadcast_message p true e2 b recipients).trace := by
  unfold broadcast_message
  refine ⟨?_, ?_, ?_, ?_, ?_⟩
  · exact runBatches_renders_nums p e1 recipients.length
      (batch_list recipients b) 1 _
  · exact runBatches_renders_off p e1 recipients.length
      (batch_list recipients b) 1 _
  · rw [runBatches_stats, runBatches_stats]
  · rw [runBatches_persisted, runBatches_persisted]
  · rw [runBatches_trace, runBatches_trace]

end Sub
